import Mathlib

/-!
Verification development for the Ilam miner-detector core
(`ilam_miner_detector`): a shallow embedding in Lean 4 of the rule engine
(`detection_rules.py`), the port-scan aggregation (`network_scanner.py`),
the token-bucket rate limiter and geolocation lookup (`geolocation.py`,
`database.py`) and the address-space handling (`ip_manager.py`),
together with theorems settling the specified properties.

Modelling conventions:
* Python `float` values (confidences, token counts, timestamps,
  coordinates) are embedded as exact rationals `ℚ`.
* Python `set` values are embedded as `Finset`; Python's stable `sorted`
  is embedded as `List.insertionSort` (any stable sort by the same key
  produces the same list, so this is observationally faithful).
* Strings are handled at the `List Char` level where kernel evaluation
  is needed; `lowerChars` models ASCII `str.lower()`.
* Network and clock effects are passed explicitly: probe outcomes,
  provider responses and the current time are parameters.
-/

/-- Character-level lowercase of a string; models Python `str.lower()`
on the ASCII banners and patterns the rules use. -/
def lowerChars (s : String) : List Char :=
  s.toList.map Char.toLower

/-- Contiguous-substring test on char lists; models Python `pat in s`
for strings. -/
def listContainsSub (pat : List Char) : List Char → Bool
  | [] => decide (pat = [])
  | c :: t => pat.isPrefixOf (c :: t) || listContainsSub pat t

namespace DetectionRules

/-- The `conditions` dictionary of a rule (`detection_rules.py`); each
recognised key is an optional field, `none` meaning the key is absent. -/
structure RuleConditions where
  ports : Option (List Nat) := none
  min_ports : Option Nat := none
  max_ports : Option Nat := none
  banner_patterns : Option (List String) := none
  port_combinations : Option (List (List Nat)) := none
  min_combinations : Option Nat := none
  bandwidth_threshold_mbps : Option Nat := none
deriving DecidableEq, Repr

/-- Embeds `DetectionRule` dataclass (`detection_rules.py:15-29`). -/
structure DetectionRule where
  name : String
  description : String := ""
  enabled : Bool := true
  priority : Int := 50
  conditions : RuleConditions := {}
  actions : List String := ["log"]
  confidence_score : ℚ := 1/2
  tags : List String := []
deriving DecidableEq, Repr

/-- The `matched_conditions` dictionary collected by `_evaluate_rule`;
the set of matched ports is a Python `set`, hence a `Finset`. -/
structure MatchedConditions where
  ports : Option (Finset Nat) := none
  banner_patterns : Option (List (Nat × String)) := none
  port_combinations : Option (List (List Nat)) := none
deriving DecidableEq

/-- Embeds `RuleMatch` dataclass (`detection_rules.py:32-40`). -/
structure RuleMatch where
  rule_name : String
  matched : Bool
  confidence : ℚ
  reason : String
  matched_conditions : MatchedConditions
  tags : List String
deriving DecidableEq

/-- One open-port record of a host scan result, as consumed by
`DetectionRulesEngine.evaluate` (the `p.port` / `p.banner` shape of
`network_scanner.PortScanResult`). -/
structure PortScanResult where
  port : Nat
  is_open : Bool
  banner : String := ""
  service_name : String := ""
  response_time_ms : ℚ := 0
deriving DecidableEq, Repr

/-- The scan-result shape `evaluate` reads: an object with an
`open_ports` attribute (`detection_rules.py:314-317`). -/
structure ScanInput where
  open_ports : List PortScanResult
deriving DecidableEq

/-- Insert-or-update into the `banners` dict, mirroring the Python dict
comprehension `{p.port: p.banner for p in scan_result.open_ports}`
(a repeated key keeps its original position and takes the new value). -/
def dictUpsert (acc : List (Nat × String)) (k : Nat) (v : String) :
    List (Nat × String) :=
  if acc.any fun kv => kv.1 == k then
    acc.map fun kv => if kv.1 == k then (k, v) else kv
  else acc ++ [(k, v)]

/-- The `banners` dictionary built by `evaluate`
(`detection_rules.py:316-317`), as an ordered association list. -/
def bannersDict (ps : List PortScanResult) : List (Nat × String) :=
  ps.foldl (fun acc p => dictUpsert acc p.port p.banner) []

/-- The `open_ports` list extracted by `evaluate`
(`detection_rules.py:315`). -/
def openPortNumbers (scan : ScanInput) : List Nat :=
  scan.open_ports.map fun p => p.port

/-- The `'ports' in conditions` block of `_evaluate_rule`
(`detection_rules.py:353-367`): `some matchedPorts` when the key is
present and `min_ports ≤ |required ∩ open| ≤ max_ports` holds, with
defaults `min_ports = 1` and `max_ports = |required|` (the deduplicated
required-port set). -/
def portsCheck (rule : DetectionRule) (open_ports : List Nat) :
    Option (Finset Nat) :=
  match rule.conditions.ports with
  | none => none
  | some ps =>
    let required_ports : Finset Nat := ps.toFinset
    let open_ports_set : Finset Nat := open_ports.toFinset
    let min_ports := rule.conditions.min_ports.getD 1
    let max_ports := rule.conditions.max_ports.getD required_ports.card
    let matched_ports := required_ports ∩ open_ports_set
    if min_ports ≤ matched_ports.card ∧ matched_ports.card ≤ max_ports then
      some matched_ports
    else none

/-- The `'banner_patterns' in conditions` block of `_evaluate_rule`
(`detection_rules.py:369-383`): all case-insensitive substring hits of
any pattern in any banner, or `none` when the key is absent or nothing
hit. -/
def bannerCheck (rule : DetectionRule) (banners : List (Nat × String)) :
    Option (List (Nat × String)) :=
  match rule.conditions.banner_patterns with
  | none => none
  | some patterns =>
    let banner_matches :=
      banners.flatMap fun pb =>
        (patterns.filter fun pat =>
            listContainsSub (lowerChars pat) (lowerChars pb.2)).map
          fun pat => (pb.1, pat)
    if banner_matches = [] then none else some banner_matches

/-- The `'port_combinations' in conditions` block of `_evaluate_rule`
(`detection_rules.py:385-400`): the listed combinations fully contained
in the open-port set, provided at least `min_combinations` (default 1)
of them are. -/
def comboCheck (rule : DetectionRule) (open_ports : List Nat) :
    Option (List (List Nat)) :=
  match rule.conditions.port_combinations with
  | none => none
  | some combos =>
    let open_ports_set : Finset Nat := open_ports.toFinset
    let matched_combinations :=
      combos.filter fun combo => decide (combo.toFinset ⊆ open_ports_set)
    if rule.conditions.min_combinations.getD 1 ≤ matched_combinations.length then
      some matched_combinations
    else none

/-- Embeds `DetectionRulesEngine._evaluate_rule` (`detection_rules.py:333-415`):
the three recognised condition kinds are checked independently and OR'd;
the `bandwidth_threshold_mbps` key is recognised but skipped
(`detection_rules.py:403-406`), so it can never set `matched`. -/
def _evaluate_rule (rule : DetectionRule) (open_ports : List Nat)
    (banners : List (Nat × String)) : RuleMatch :=
  let portsPart := portsCheck rule open_ports
  let bannerPart := bannerCheck rule banners
  let comboPart := comboCheck rule open_ports
  let matched := portsPart.isSome || bannerPart.isSome || comboPart.isSome
  let reasons :=
    (match portsPart with
     | some mp => ["Matched " ++ toString mp.card ++ " required ports"]
     | none => []) ++
    (match bannerPart with
     | some bm => ["Matched " ++ toString bm.length ++ " banner patterns"]
     | none => []) ++
    (match comboPart with
     | some mc => ["Matched " ++ toString mc.length ++ " port combinations"]
     | none => [])
  { rule_name := rule.name
    matched := matched
    confidence := if matched then rule.confidence_score else 0
    reason := String.intercalate "; " reasons
    matched_conditions :=
      { ports := portsPart, banner_patterns := bannerPart
        port_combinations := comboPart }
    tags := rule.tags }

/-- Descending-priority precedence used by `evaluate`
(`sorted(..., key=lambda r: r.priority, reverse=True)`). -/
def priorityGe (a b : DetectionRule) : Prop :=
  b.priority ≤ a.priority

instance : DecidableRel priorityGe := fun a b =>
  inferInstanceAs (Decidable (b.priority ≤ a.priority))

instance : IsTotal DetectionRule priorityGe :=
  ⟨fun a b => le_total b.priority a.priority⟩

instance : IsTrans DetectionRule priorityGe :=
  ⟨fun _ _ _ hab hbc => le_trans hbc hab⟩

/-- The `sorted_rules` list of `evaluate` (`detection_rules.py:322-324`):
enabled rules, stably sorted by descending priority (Python's `sorted`
is stable; `insertionSort` with this precedence is the same stable
ordering). -/
def sortedEnabledRules (rules : List DetectionRule) : List DetectionRule :=
  List.insertionSort priorityGe (rules.filter fun r => r.enabled)

/-- Embeds `DetectionRulesEngine.evaluate` (`detection_rules.py:297-331`),
parameterised by the engine's rule list. -/
def evaluate (engineRules : List DetectionRule) (scan : ScanInput) :
    List RuleMatch :=
  ((sortedEnabledRules engineRules).map fun r =>
      _evaluate_rule r (openPortNumbers scan) (bannersDict scan.open_ports)).filter
    fun m => m.matched

/-- Embeds `DetectionRulesEngine.calculate_overall_confidence`
(`detection_rules.py:417-445`): each match's confidence is both weight
and value; the loop accumulators are the corresponding sums. -/
def calculate_overall_confidence (ms : List RuleMatch) : ℚ :=
  if ms.isEmpty then 0
  else
    let total_weight := (ms.map fun m => m.confidence).sum
    let weighted_sum := (ms.map fun m => m.confidence * m.confidence).sum
    if total_weight = 0 then 0
    else min (weighted_sum / total_weight) 1

/-- Largest confidence among a list of matches (0 for the empty list);
used to state the upper-bound property of the aggregate confidence. -/
def maxMatchConfidence (ms : List RuleMatch) : ℚ :=
  ms.foldr (fun m acc => max m.confidence acc) 0

end DetectionRules

namespace NetScan

open DetectionRules (PortScanResult)

/-- Outcome of `NetworkScanner._check_port` for one port, as observed by
`_scan_ports`: either the returned `PortScanResult`, or an exception
propagated through `asyncio.gather(..., return_exceptions=True)`. -/
inductive ProbeOutcome where
  | ok (res : PortScanResult)
  | exn (msg : String)
deriving DecidableEq

/-- Whether a probe outcome is an open port. -/
def probeIsOpen : ProbeOutcome → Bool
  | .ok r => r.is_open
  | .exn _ => false

/-- Embeds `NetworkScanner._scan_ports` (`network_scanner.py:228-241`): one
probe per entry of `ports`; `asyncio.gather` returns results in task
submission order, so `zip(ports, results)` pairs each port with its own
outcome in input order; exceptions are logged and skipped, and only
results with `is_open` are kept. The per-port probe outcome is passed in
as `probe`, the deterministic abstraction of the network. -/
def scan_ports (probe : Nat → ProbeOutcome) (ports : List Nat) :
    List PortScanResult :=
  ports.filterMap fun p =>
    match probe p with
    | .exn _ => none
    | .ok r => if r.is_open then some r else none

end NetScan

namespace Geolocation

/-- Embeds `RateLimiter` (`geolocation.py:54-87`); `tokens` and timestamps are
floats, embedded as `ℚ`. The wall clock is passed explicitly to
`acquire` as `now` (the value `time.time()` would return). -/
structure RateLimiter where
  max_requests : ℚ
  time_window : ℚ
  tokens : ℚ
  last_update : ℚ
deriving DecidableEq, Repr

/-- Embeds `RateLimiter.__init__`: a full bucket, stamped with the current
time. -/
def RateLimiter.init (max_requests : ℚ) (time_window : ℚ) (now : ℚ) :
    RateLimiter :=
  { max_requests := max_requests, time_window := time_window
    tokens := max_requests, last_update := now }

/-- Embeds `RateLimiter.acquire` (`geolocation.py:64-80`): continuous refill
capped at capacity, then a non-blocking attempt — `true` with one token
consumed when at least one token is available, otherwise `false` with
none consumed. -/
def RateLimiter.acquire (rl : RateLimiter) (now : ℚ) : Bool × RateLimiter :=
  let elapsed := now - rl.last_update
  let tokens := min rl.max_requests
    (rl.tokens + elapsed * rl.max_requests / rl.time_window)
  if 1 ≤ tokens then
    (true, { rl with tokens := tokens - 1, last_update := now })
  else
    (false, { rl with tokens := tokens, last_update := now })

/-- Embeds `RateLimiter.get_wait_time` (`geolocation.py:82-87`). -/
def RateLimiter.get_wait_time (rl : RateLimiter) : ℚ :=
  if 1 ≤ rl.tokens then 0
  else (1 - rl.tokens) * rl.time_window / rl.max_requests

/-- Embeds `GeolocationCache` dataclass (`database.py:66-92`); datetimes are
embedded as `ℚ` seconds, `cached_at + ttl_hours` hours gives the expiry
instant. -/
structure GeolocationCache where
  ip_address : String := ""
  country : String := ""
  country_code : String := ""
  region : String := ""
  city : String := ""
  latitude : ℚ := 0
  longitude : ℚ := 0
  isp : String := ""
  org : String := ""
  cached_at : Option ℚ := none
  ttl_hours : ℚ := 24
deriving DecidableEq

/-- Embeds `GeolocationCache.is_expired` (`database.py:80-85`), with the
current time passed explicitly. -/
def GeolocationCache.is_expired (g : GeolocationCache) (now : ℚ) : Bool :=
  match g.cached_at with
  | none => true
  | some t => decide (t + g.ttl_hours * 3600 < now)

/-- Embeds `DatabaseManager.get_geolocation` (`database.py:324-336`): the row
for the address, returned only when present and not expired. The table
is modelled as an association list keyed by address. -/
def get_geolocation (store : List (String × GeolocationCache))
    (ip : String) (now : ℚ) : Option GeolocationCache :=
  match store.find? fun kv => kv.1 == ip with
  | some kv => if kv.2.is_expired now then none else some kv.2
  | none => none

/-- Embeds `GeolocationResult` dataclass (`geolocation.py:21-51`). -/
structure GeolocationResult where
  ip_address : String
  country : String := ""
  country_code : String := ""
  region : String := ""
  city : String := ""
  latitude : ℚ := 0
  longitude : ℚ := 0
  isp : String := ""
  org : String := ""
  is_in_ilam : Bool := false
  success : Bool := false
  error : String := ""
deriving DecidableEq

/-- The Ilam-region bounding box from the configuration
(`config_manager.IlamRegionConfig`). -/
structure IlamRegionConfig where
  min_latitude : ℚ
  max_latitude : ℚ
  min_longitude : ℚ
  max_longitude : ℚ
deriving DecidableEq

/-- Embeds `GeolocationService._check_ilam_region` (`geolocation.py:272-275`). -/
def _check_ilam_region (ilam : IlamRegionConfig) (latitude longitude : ℚ) :
    Bool :=
  decide (ilam.min_latitude ≤ latitude ∧ latitude ≤ ilam.max_latitude ∧
    ilam.min_longitude ≤ longitude ∧ longitude ≤ ilam.max_longitude)

/-- Embeds `GeolocationService._cache_to_result` (`geolocation.py:300-314`). -/
def _cache_to_result (ilam : IlamRegionConfig) (cache : GeolocationCache) :
    GeolocationResult :=
  { ip_address := cache.ip_address
    country := cache.country
    country_code := cache.country_code
    region := cache.region
    city := cache.city
    latitude := cache.latitude
    longitude := cache.longitude
    isp := cache.isp
    org := cache.org
    is_in_ilam := _check_ilam_region ilam cache.latitude cache.longitude
    success := true }

/-- The geolocation part of the configuration used by `lookup`. -/
structure GeoConfig where
  cache_enabled : Bool
  ipinfo_token : String
deriving DecidableEq

/-- The outcome of the two provider calls for the given address, i.e.
the results `_lookup_ipapi` and `_lookup_ipinfo` would return (each one
folds its own HTTP errors into `success := false` internally). -/
structure ProviderEnv where
  primary : GeolocationResult
  fallback : GeolocationResult
deriving DecidableEq

/-- Embeds `GeolocationService.lookup` (`geolocation.py:113-166`), with the
database row, rate-limiter state, wall clock and provider responses
passed explicitly. Returns the result, the rate limiter state after the
call, and how many providers were queried. On a failed `acquire` the
source sleeps `get_wait_time` and then proceeds to the provider without
re-acquiring; the sleep affects only wall time, not the returned state.
The cache write performed on provider success (`_cache_result`) is a
database effect outside the returned state. -/
def lookup (cfg : GeoConfig) (ilam : IlamRegionConfig)
    (store : List (String × GeolocationCache)) (rl : RateLimiter) (now : ℚ)
    (env : ProviderEnv) (ip : String) (use_cache : Bool) :
    GeolocationResult × RateLimiter × Nat :=
  if ip = "127.0.0.1" ∨ ip = "localhost" ∨ ip = "0.0.0.0" then
    ({ ip_address := ip, error := "Cannot geolocate local IP" }, rl, 0)
  else
    match (if use_cache && cfg.cache_enabled then get_geolocation store ip now
           else none) with
    | some cached => (_cache_to_result ilam cached, rl, 0)
    | none =>
      let rl1 := (rl.acquire now).2
      if env.primary.success then (env.primary, rl1, 1)
      else if cfg.ipinfo_token ≠ "" then
        if env.fallback.success then (env.fallback, rl1, 2)
        else ({ env.fallback with
                error := "All geolocation providers failed" }, rl1, 2)
      else ({ env.primary with
              error := "All geolocation providers failed" }, rl1, 1)

end Geolocation

namespace IPM

/-- Split a char list at every occurrence of the separator; models
Python `str.split(sep)` for a one-character separator (so the empty
string yields one empty token). -/
def splitOnChar (sep : Char) : List Char → List (List Char)
  | [] => [[]]
  | x :: t =>
    let r := splitOnChar sep t
    if x = sep then [] :: r
    else
      match r with
      | [] => [[x]]
      | h :: t2 => (x :: h) :: t2

/-- Strip leading and trailing whitespace; models Python `str.strip()`. -/
def trimChars (l : List Char) : List Char :=
  ((l.dropWhile Char.isWhitespace).reverse.dropWhile Char.isWhitespace).reverse

/-- Decimal value of a digit list. -/
def digitsVal (l : List Char) : Nat :=
  l.foldl (fun a c => a * 10 + (c.toNat - 48)) 0

/-- One dotted-quad octet; models CPython `ipaddress._parse_octet`:
1-3 ASCII digits, no leading zero in a multi-digit octet, value ≤ 255. -/
def parseOctet (l : List Char) : Option Nat :=
  if l = [] ∨ 3 < l.length then none
  else if ¬ l.all Char.isDigit then none
  else if 1 < l.length ∧ l.head? = some '0' then none
  else if digitsVal l ≤ 255 then some (digitsVal l)
  else none

/-- Parse a dotted-quad IPv4 address into its 32-bit value; models
CPython `ipaddress.IPv4Address(str)`. -/
def parseIPv4 (l : List Char) : Option Nat :=
  match (splitOnChar '.' l).map parseOctet with
  | [some a, some b, some c, some d] => some (((a * 256 + b) * 256 + c) * 256 + d)
  | _ => none

/-- Parse a decimal prefix length (`0`-`32`); models the decimal-prefix
form accepted by CPython `ipaddress.IPv4Network`. -/
def parsePrefixLen (l : List Char) : Option Nat :=
  if l = [] ∨ ¬ l.all Char.isDigit ∨ 2 < l.length then none
  else if digitsVal l ≤ 32 then some (digitsVal l)
  else none

/-- An IPv4 network as (masked base address, prefix length). -/
structure IPv4Network where
  base : Nat
  prefixLen : Nat
deriving DecidableEq, Repr

/-- Parse CIDR notation with `strict=False`; models CPython
`ipaddress.IPv4Network(s, strict=False)` for the dotted-quad /
decimal-prefix form the repository uses: host bits are masked away, and
a bare address is a /32 network. -/
def parseCIDR (l : List Char) : Option IPv4Network :=
  match splitOnChar '/' l with
  | [addr] =>
    match parseIPv4 addr with
    | some a => some { base := a, prefixLen := 32 }
    | none => none
  | [addr, pre] =>
    match parseIPv4 addr, parsePrefixLen pre with
    | some a, some p => some { base := a / 2 ^ (32 - p) * 2 ^ (32 - p), prefixLen := p }
    | _, _ => none
  | _ => none

/-- Host addresses of a network; models CPython
`IPv4Network.hosts()`: network and broadcast addresses are excluded for
prefixes up to /30, a /31 yields both addresses, a /32 yields the
single address. -/
def networkHosts (net : IPv4Network) : List Nat :=
  if net.prefixLen ≤ 30 then
    (List.range (2 ^ (32 - net.prefixLen) - 2)).map fun i => net.base + 1 + i
  else if net.prefixLen = 31 then [net.base, net.base + 1]
  else [net.base]

/-- Mutable filtering state of `IPManager` (`ip_manager.py:39-41`). -/
structure IPManager where
  exclude_private : Bool
  excluded_networks : List IPv4Network
deriving DecidableEq

/-- A fresh `IPManager()`: no exclusions configured. -/
def ipmDefault : IPManager :=
  { exclude_private := false, excluded_networks := [] }

/-- Network membership test; models Python `ip in network`. -/
def inNetwork (ip : Nat) (net : IPv4Network) : Bool :=
  ip / 2 ^ (32 - net.prefixLen) * 2 ^ (32 - net.prefixLen) == net.base

/-- Modelled from CPython `ipaddress`: `is_private`/`is_loopback`/
`is_link_local` for IPv4, i.e. membership in the standard private,
loopback, link-local, this-network and reserved blocks
(`IPManager.is_private_ip`, `ip_manager.py:152-154`). -/
def is_private_ip (ip : Nat) : Bool :=
  [({ base := 0, prefixLen := 8 } : IPv4Network),
   { base := 10 * 2 ^ 24, prefixLen := 8 },
   { base := 127 * 2 ^ 24, prefixLen := 8 },
   { base := 169 * 2 ^ 24 + 254 * 2 ^ 16, prefixLen := 16 },
   { base := 172 * 2 ^ 24 + 16 * 2 ^ 16, prefixLen := 12 },
   { base := 192 * 2 ^ 24 + 168 * 2 ^ 16, prefixLen := 16 },
   { base := 240 * 2 ^ 24, prefixLen := 4 }].any fun net => inNetwork ip net

/-- Embeds `IPManager._should_exclude` (`ip_manager.py:190-199`). -/
def _should_exclude (m : IPManager) (ip : Nat) : Bool :=
  (m.exclude_private && is_private_ip ip) ||
    m.excluded_networks.any fun net => inNetwork ip net

/-- The per-token loop body of `IPManager.parse_ip_list`
(`ip_manager.py:80-99`): empty tokens are skipped, a token with `/` is
expanded as a CIDR, otherwise parsed as a single address; a `ValueError`
(here: a failed parse) is logged and the token skipped; accepted
addresses accumulate into a set, modelled as a duplicate-free list. -/
def processTokens (m : IPManager) : List (List Char) → List Nat
  | [] => []
  | t :: rest =>
    let acc := processTokens m rest
    if t = [] then acc
    else if t.contains '/' then
      match parseCIDR t with
      | some net => ((networkHosts net).filter fun h => ! _should_exclude m h).union acc
      | none => acc
    else
      match parseIPv4 t with
      | some ip => (if _should_exclude m ip then [] else [ip]).union acc
      | none => acc

/-- Embeds `IPManager.parse_ip_list` (`ip_manager.py:70-101`): split on commas,
strip each token, process the tokens, and return `sorted(list(ips))`. -/
def parse_ip_list (m : IPManager) (l : List Char) : List Nat :=
  List.insertionSort (· ≤ ·)
    (processTokens m ((splitOnChar ',' l).map trimChars))

/-- Whether one token of `parse_ip_list` parses successfully. -/
def tokenParses (t : List Char) : Bool :=
  if t.contains '/' then (parseCIDR t).isSome else (parseIPv4 t).isSome

/-- Embeds `IPManager.generate_ip_range` (`ip_manager.py:103-131`): malformed
endpoints or a descending range raise a `ValueError` wrapped into
`"Invalid IP range: ..."`; otherwise every address from start to end
inclusive is yielded, minus exclusions. The source is a generator (the
error surfaces at first iteration); it is embedded eagerly. -/
def generate_ip_range (m : IPManager) (start_ip end_ip : List Char) :
    Except String (List Nat) :=
  match parseIPv4 start_ip, parseIPv4 end_ip with
  | some s, some e =>
    if e < s then
      .error ("Invalid IP range: " ++ String.mk start_ip ++ " - " ++ String.mk end_ip)
    else
      .ok (((List.range (e - s + 1)).map fun i => s + i).filter
        fun ip => ! _should_exclude m ip)
  | _, _ =>
    .error ("Invalid IP range: " ++ String.mk start_ip ++ " - " ++ String.mk end_ip)

/-- Embeds `IPManager.generate_from_cidr` (`ip_manager.py:133-150`): the host
addresses of the network, minus exclusions; a malformed CIDR raises a
`ValueError` wrapped into `"Invalid CIDR: ..."`. The source is a
generator; it is embedded eagerly. -/
def generate_from_cidr (m : IPManager) (cidr : List Char) :
    Except String (List Nat) :=
  match parseCIDR cidr with
  | some net => .ok ((networkHosts net).filter fun h => ! _should_exclude m h)
  | none => .error ("Invalid CIDR: " ++ String.mk cidr)

end IPM

section ConfidenceLemmas

open DetectionRules

lemma list_sum_nonneg (l : List ℚ) (h : ∀ x ∈ l, 0 ≤ x) : 0 ≤ l.sum := by
  induction l with
  | nil => simp
  | cons x t ih =>
    simp only [List.sum_cons]
    have hx := h x (List.mem_cons_self x t)
    have ht := ih fun y hy => h y (List.mem_cons_of_mem x hy)
    linarith

lemma sq_sum_le_mul_sum (l : List ℚ) (B : ℚ)
    (h0 : ∀ x ∈ l, 0 ≤ x) (hB : ∀ x ∈ l, x ≤ B) :
    (l.map fun x => x * x).sum ≤ B * l.sum := by
  induction l with
  | nil => simp
  | cons x t ih =>
    simp only [List.map_cons, List.sum_cons, mul_add]
    have hx0 := h0 x (List.mem_cons_self x t)
    have hxB := hB x (List.mem_cons_self x t)
    have ht := ih (fun y hy => h0 y (List.mem_cons_of_mem x hy))
      (fun y hy => hB y (List.mem_cons_of_mem x hy))
    have hxx : x * x ≤ B * x := mul_le_mul_of_nonneg_right hxB hx0
    linarith

lemma all_zero_of_sum_zero (l : List ℚ) (h0 : ∀ x ∈ l, 0 ≤ x)
    (hs : l.sum = 0) : ∀ x ∈ l, x = 0 := by
  induction l with
  | nil => simp
  | cons x t ih =>
    simp only [List.sum_cons] at hs
    have hx := h0 x (List.mem_cons_self x t)
    have ht := list_sum_nonneg t fun y hy => h0 y (List.mem_cons_of_mem x hy)
    have hx0 : x = 0 := by linarith
    have hts : t.sum = 0 := by linarith
    intro y hy
    rcases List.mem_cons.mp hy with h | h
    · exact h ▸ hx0
    · exact ih (fun z hz => h0 z (List.mem_cons_of_mem x hz)) hts y h

lemma le_maxMatchConfidence {ms : List RuleMatch} {m : RuleMatch}
    (hm : m ∈ ms) : m.confidence ≤ maxMatchConfidence ms := by
  induction ms with
  | nil => cases hm
  | cons x t ih =>
    rcases List.mem_cons.mp hm with h | h
    · subst h; exact le_max_left _ _
    · exact le_trans (ih h) (le_max_right _ _)

lemma maxMatchConfidence_nonneg (ms : List RuleMatch) :
    0 ≤ maxMatchConfidence ms := by
  induction ms with
  | nil => simp [maxMatchConfidence]
  | cons x t ih =>
    exact le_trans ih (le_max_right _ _)

end ConfidenceLemmas

open DetectionRules in
/-- C1: `calculate_overall_confidence` returns exactly 0.0 on the empty
match list; on any non-empty match list whose confidences all lie in
[0,1] it returns the self-weighted average Σ(confidenceᵢ²)/Σ(confidenceᵢ)
clamped to 1.0, so the result is always ≤ 1.0, and the degenerate
all-zero-confidence case returns 0.0. -/
theorem C1_overall_confidence_spec :
    calculate_overall_confidence [] = 0 ∧
    ∀ ms : List RuleMatch, ms ≠ [] →
      (∀ m ∈ ms, 0 ≤ m.confidence ∧ m.confidence ≤ 1) →
      calculate_overall_confidence ms =
          min ((ms.map fun m => m.confidence * m.confidence).sum /
            (ms.map fun m => m.confidence).sum) 1 ∧
        calculate_overall_confidence ms ≤ 1 ∧
        ((∀ m ∈ ms, m.confidence = 0) → calculate_overall_confidence ms = 0) := by
  constructor
  · rfl
  · intro ms hne hbounds
    have hne' : ms.isEmpty = false := by
      cases ms with
      | nil => exact absurd rfl hne
      | cons x t => rfl
    have h0 : ∀ x ∈ ms.map fun m => m.confidence, 0 ≤ x := by
      intro x hx
      rcases List.mem_map.mp hx with ⟨m, hm, rfl⟩
      exact (hbounds m hm).1
    by_cases htw : (ms.map fun m => m.confidence).sum = 0
    · have hz : ∀ m ∈ ms, m.confidence = 0 := by
        intro m hm
        exact all_zero_of_sum_zero _ h0 htw _ (List.mem_map_of_mem _ hm)
      have hws : (ms.map fun m => m.confidence * m.confidence).sum = 0 := by
        apply List.sum_eq_zero
        intro x hx
        rcases List.mem_map.mp hx with ⟨m, hm, rfl⟩
        rw [hz m hm, mul_zero]
      have hres : calculate_overall_confidence ms = 0 := by
        simp only [calculate_overall_confidence, hne', Bool.false_eq_true,
          if_false, htw, if_true, if_pos]
      refine ⟨?_, ?_, fun _ => hres⟩
      · rw [hres, hws, htw, zero_div]
        exact (min_eq_left (by norm_num)).symm
      · rw [hres]; norm_num
    · have hres : calculate_overall_confidence ms =
          min ((ms.map fun m => m.confidence * m.confidence).sum /
            (ms.map fun m => m.confidence).sum) 1 := by
        simp only [calculate_overall_confidence, hne', Bool.false_eq_true,
          if_false, htw, if_false]
      refine ⟨hres, ?_, ?_⟩
      · rw [hres]; exact min_le_right _ _
      · intro hz
        exact absurd (List.sum_eq_zero fun x hx => by
          rcases List.mem_map.mp hx with ⟨m, hm, rfl⟩
          exact hz m hm) htw

open DetectionRules in
/-- Concrete instance of C1: a singleton match list with confidence 1/2. -/
def mC1 : RuleMatch :=
  { rule_name := "r", matched := true, confidence := 1/2, reason := ""
    matched_conditions := {}, tags := [] }

/-- Witness for C1 at the singleton list `[mC1]`. -/
theorem C1_overall_confidence_spec_witness :
    ([mC1] ≠ ([] : List DetectionRules.RuleMatch)) ∧
      DetectionRules.calculate_overall_confidence [mC1] ≤ 1 :=
  ⟨by simp,
    (C1_overall_confidence_spec.2 [mC1] (by simp)
      (by intro m hm; simp only [List.mem_singleton] at hm; subst hm
          constructor <;> norm_num [mC1])).2.1⟩

open DetectionRules in
/-- C10: on a non-empty match list with non-negative confidences, at
least one positive, the aggregate confidence is bounded by the maximum
match confidence; when every confidence lies in [0,1] the final clamp to
1.0 never changes the computed value (the result equals the unclamped
ratio). -/
theorem C10_confidence_le_max :
    ∀ ms : List RuleMatch, ms ≠ [] →
      (∀ m ∈ ms, 0 ≤ m.confidence) →
      (∃ m ∈ ms, 0 < m.confidence) →
      calculate_overall_confidence ms ≤ maxMatchConfidence ms ∧
      ((∀ m ∈ ms, m.confidence ≤ 1) →
        calculate_overall_confidence ms =
          (ms.map fun m => m.confidence * m.confidence).sum /
            (ms.map fun m => m.confidence).sum) := by
  intro ms hne h0 hpos
  have hne' : ms.isEmpty = false := by
    cases ms with
    | nil => exact absurd rfl hne
    | cons x t => rfl
  have h0' : ∀ x ∈ ms.map fun m => m.confidence, 0 ≤ x := by
    intro x hx
    rcases List.mem_map.mp hx with ⟨m, hm, rfl⟩
    exact h0 m hm
  obtain ⟨m0, hm0, hm0pos⟩ := hpos
  have htot : 0 < (ms.map fun m => m.confidence).sum := by
    have hle := List.single_le_sum h0' m0.confidence (List.mem_map_of_mem _ hm0)
    linarith
  have htw : (ms.map fun m => m.confidence).sum ≠ 0 := ne_of_gt htot
  have hres : calculate_overall_confidence ms =
      min ((ms.map fun m => m.confidence * m.confidence).sum /
        (ms.map fun m => m.confidence).sum) 1 := by
    simp only [calculate_overall_confidence, hne', Bool.false_eq_true,
      if_false, htw, if_false]
  constructor
  · have hball : ∀ x ∈ ms.map fun m => m.confidence, x ≤ maxMatchConfidence ms := by
      intro x hx
      rcases List.mem_map.mp hx with ⟨m, hm, rfl⟩
      exact le_maxMatchConfidence hm
    have hsq := sq_sum_le_mul_sum _ (maxMatchConfidence ms) h0' hball
    have hdiv : (ms.map fun m => m.confidence * m.confidence).sum /
        (ms.map fun m => m.confidence).sum ≤ maxMatchConfidence ms := by
      rw [div_le_iff₀ htot]
      calc (ms.map fun m => m.confidence * m.confidence).sum
          ≤ maxMatchConfidence ms * (ms.map fun m => m.confidence).sum := by
            have : (ms.map fun m => m.confidence).map (fun x => x * x)
                = ms.map fun m => m.confidence * m.confidence := by
              rw [List.map_map]; rfl
            calc (ms.map fun m => m.confidence * m.confidence).sum
                = ((ms.map fun m => m.confidence).map fun x => x * x).sum := by rw [this]
              _ ≤ _ := hsq
        _ = _ := rfl
    rw [hres]
    exact le_trans (min_le_left _ _) hdiv
  · intro hb1
    have hball1 : ∀ x ∈ ms.map fun m => m.confidence, x ≤ 1 := by
      intro x hx
      rcases List.mem_map.mp hx with ⟨m, hm, rfl⟩
      exact hb1 m hm
    have hsq := sq_sum_le_mul_sum _ 1 h0' hball1
    rw [List.map_map] at hsq
    have hmm : ((fun x => x * x) ∘ fun m => m.confidence)
        = fun (m : RuleMatch) => m.confidence * m.confidence := rfl
    rw [hmm, one_mul] at hsq
    have hdiv1 : (ms.map fun m => m.confidence * m.confidence).sum /
        (ms.map fun m => m.confidence).sum ≤ 1 := by
      rw [div_le_one htot]; exact hsq
    rw [hres]
    exact min_eq_left hdiv1

open DetectionRules in
/-- Concrete instance of C10: first match with confidence 1/2. -/
def mC10a : RuleMatch :=
  { rule_name := "r1", matched := true, confidence := 1/2, reason := ""
    matched_conditions := {}, tags := [] }

open DetectionRules in
/-- Concrete instance of C10: second match with confidence 1/4. -/
def mC10b : RuleMatch :=
  { rule_name := "r2", matched := true, confidence := 1/4, reason := ""
    matched_conditions := {}, tags := [] }

/-- Witness for C10 at the two-element match list. -/
theorem C10_confidence_le_max_witness :
    ([mC10a, mC10b] ≠ ([] : List DetectionRules.RuleMatch)) ∧
      DetectionRules.calculate_overall_confidence [mC10a, mC10b] ≤
        DetectionRules.maxMatchConfidence [mC10a, mC10b] :=
  ⟨by simp,
    (C10_confidence_le_max [mC10a, mC10b] (by simp)
      (by intro m hm
          simp only [List.mem_cons, List.mem_singleton] at hm
          rcases hm with h | h | h
          · subst h; norm_num [mC10a]
          · subst h; norm_num [mC10b]
          · cases h)
      ⟨mC10a, by simp, by norm_num [mC10a]⟩).1⟩

open Geolocation in
/-- Fresh rate limiter with capacity 2 and a 1-second window, created at
time 0. -/
def rlC2_0 : RateLimiter := RateLimiter.init 2 1 0

open Geolocation in
/-- State after one immediate `acquire`. -/
def rlC2_1 : RateLimiter := (rlC2_0.acquire 0).2

open Geolocation in
/-- State after two immediate `acquire` calls. -/
def rlC2_2 : RateLimiter := (rlC2_1.acquire 0).2

open Geolocation in
lemma rlC2_1_eq :
    rlC2_1 = { max_requests := 2, time_window := 1, tokens := 1, last_update := 0 } := by
  norm_num [rlC2_1, rlC2_0, RateLimiter.acquire, RateLimiter.init, min_def]

open Geolocation in
lemma rlC2_2_eq :
    rlC2_2 = { max_requests := 2, time_window := 1, tokens := 0, last_update := 0 } := by
  norm_num [rlC2_2, rlC2_1_eq, RateLimiter.acquire, min_def]

/-- Counterexample to C2: `RateLimiter.acquire` does not block until a
token is available — with capacity 2 and window 1s, the first two
immediate calls return `true` but the third returns `false` (an
unsuccessful return, which the claim says never happens). -/
theorem C2_counterexample :
    (rlC2_0.acquire 0).1 = true ∧ (rlC2_1.acquire 0).1 = true ∧
      (rlC2_2.acquire 0).1 = false := by
  refine ⟨?_, ?_, ?_⟩
  · norm_num [rlC2_0, Geolocation.RateLimiter.acquire, Geolocation.RateLimiter.init,
      min_def]
  · norm_num [rlC2_1_eq, Geolocation.RateLimiter.acquire, min_def]
  · norm_num [rlC2_2_eq, Geolocation.RateLimiter.acquire, min_def]

open Geolocation in
/-- C2 (amended): `acquire` is non-blocking. It refills the bucket
continuously (capped at capacity), stamps `last_update`, and returns
`true` consuming exactly one token iff at least one token is available
after the refill, otherwise returns `false` consuming none. In the
capacity-2, window-1s scenario, two immediate calls succeed, the third
immediately returns `false` with `get_wait_time` = 0.5 s (the caller,
`GeolocationService.lookup`, sleeps that long), and an `acquire` retried
0.5 s later succeeds. -/
theorem C2_acquire_nonblocking :
    (∀ (rl : RateLimiter) (now : ℚ),
      ((rl.acquire now).1 = true ↔
        1 ≤ min rl.max_requests
          (rl.tokens + (now - rl.last_update) * rl.max_requests / rl.time_window)) ∧
      (rl.acquire now).2.last_update = now ∧
      ((rl.acquire now).1 = true →
        (rl.acquire now).2.tokens =
          min rl.max_requests
            (rl.tokens + (now - rl.last_update) * rl.max_requests / rl.time_window) - 1) ∧
      ((rl.acquire now).1 = false →
        (rl.acquire now).2.tokens =
          min rl.max_requests
            (rl.tokens + (now - rl.last_update) * rl.max_requests / rl.time_window))) ∧
    (rlC2_0.acquire 0).1 = true ∧ (rlC2_1.acquire 0).1 = true ∧
    (rlC2_2.acquire 0).1 = false ∧ rlC2_2.get_wait_time = 1/2 ∧
    (rlC2_2.acquire (1/2)).1 = true := by
  constructor
  · intro rl now
    by_cases h : 1 ≤ min rl.max_requests
        (rl.tokens + (now - rl.last_update) * rl.max_requests / rl.time_window)
    · simp [RateLimiter.acquire, h]
    · simp [RateLimiter.acquire, h]
  · refine ⟨?_, ?_, ?_, ?_, ?_⟩
    · norm_num [rlC2_0, RateLimiter.acquire, RateLimiter.init, min_def]
    · norm_num [rlC2_1_eq, RateLimiter.acquire, min_def]
    · norm_num [rlC2_2_eq, RateLimiter.acquire, min_def]
    · norm_num [rlC2_2_eq, RateLimiter.get_wait_time]
    · norm_num [rlC2_2_eq, RateLimiter.acquire, min_def]

/-- Witness for C2 (amended) at the fresh capacity-2 limiter and `now = 0`:
the success branch consumes exactly one token and stamps the clock. -/
theorem C2_acquire_nonblocking_witness :
    (rlC2_0.acquire 0).2.last_update = 0 ∧ (rlC2_0.acquire 0).2.tokens = 1 := by
  have h := C2_acquire_nonblocking.1 rlC2_0 0
  refine ⟨h.2.1, ?_⟩
  have ht := h.2.2.1 (by
    norm_num [rlC2_0, Geolocation.RateLimiter.init, Geolocation.RateLimiter.acquire,
      min_def])
  rw [ht]
  norm_num [rlC2_0, Geolocation.RateLimiter.init, min_def]

open NetScan DetectionRules in
/-- Probe abstraction in which every port is open. -/
def probeC3 : Nat → ProbeOutcome := fun p =>
  .ok { port := p, is_open := true }

/-- Counterexample to C3: probing `[4444, 3333]` with both ports open
yields the aggregated list in input order `[4444, 3333]`, which is not
sorted ascending by port number. -/
theorem C3_counterexample :
    ((NetScan.scan_ports probeC3 [4444, 3333]).map fun r => r.port) = [4444, 3333] ∧
      ¬ List.Sorted (· ≤ ·)
        ((NetScan.scan_ports probeC3 [4444, 3333]).map fun r => r.port) := by
  constructor
  · rfl
  · decide

open NetScan DetectionRules in
/-- C3 (amended): the aggregated `open_ports` list of `_scan_ports`
contains exactly the probed ports found open — closed ports and probe
errors contribute nothing — in the order of the input `ports` list
(`asyncio.gather` preserves submission order), not sorted by port
number; every kept entry is marked open. -/
theorem C3_scan_ports_open_in_input_order :
    ∀ (probe : Nat → ProbeOutcome) (ports : List Nat),
      (∀ p r, probe p = ProbeOutcome.ok r → r.port = p) →
      ((scan_ports probe ports).map fun r => r.port) =
          ports.filter (fun p => probeIsOpen (probe p)) ∧
      ∀ r ∈ scan_ports probe ports, r.is_open = true := by
  intro probe ports hport
  constructor
  · induction ports with
    | nil => rfl
    | cons p t ih =>
      simp only [scan_ports, List.filterMap_cons, List.filter_cons] at *
      cases hpr : probe p with
      | exn m => simp [hpr, probeIsOpen, ih]
      | ok r =>
        by_cases hro : r.is_open = true
        · have hp := hport p r hpr
          simp [hpr, hro, probeIsOpen, hp, ih]
        · simp [hpr, hro, probeIsOpen, ih]
  · intro r hr
    simp only [scan_ports, List.mem_filterMap] at hr
    obtain ⟨p, _, h⟩ := hr
    cases hpr : probe p with
    | exn m => rw [hpr] at h; cases h
    | ok r2 =>
      rw [hpr] at h
      dsimp only at h
      by_cases h2 : r2.is_open = true
      · rw [if_pos h2, Option.some_inj] at h
        exact h ▸ h2
      · rw [if_neg h2] at h; cases h

open NetScan DetectionRules in
/-- Probe abstraction with one open port, one closed port, and errors
everywhere else. -/
def probeC3W : Nat → ProbeOutcome := fun p =>
  if p = 3333 then .ok { port := p, is_open := true }
  else if p = 22 then .ok { port := p, is_open := false }
  else .exn "connection error"

/-- Witness for C3 (amended) at ports `[22, 3333, 9]`: only the open
port 3333 is kept, in input position. -/
theorem C3_scan_ports_open_in_input_order_witness :
    ((NetScan.scan_ports probeC3W [22, 3333, 9]).map fun r => r.port) =
        [22, 3333, 9].filter (fun p => NetScan.probeIsOpen (probeC3W p)) ∧
      ((NetScan.scan_ports probeC3W [22, 3333, 9]).map fun r => r.port) = [3333] := by
  have h := (C3_scan_ports_open_in_input_order probeC3W [22, 3333, 9] (by
    intro p r hin
    simp only [probeC3W] at hin
    split_ifs at hin <;> cases hin <;> rfl)).1
  exact ⟨h, h.trans (by decide)⟩

section SortStability

open DetectionRules

lemma filter_orderedInsert_priority_eq (p : Int) (a : DetectionRule)
    (l : List DetectionRule) (ha : a.priority = p) :
    (List.orderedInsert priorityGe a l).filter (fun r => r.priority == p) =
      a :: l.filter (fun r => r.priority == p) := by
  induction l with
  | nil => simp [List.orderedInsert, List.filter_cons, ha]
  | cons b t ih =>
    by_cases hr : priorityGe a b
    · rw [List.orderedInsert, if_pos hr]
      simp [List.filter_cons, ha]
    · rw [List.orderedInsert, if_neg hr]
      have hlt : a.priority < b.priority := by
        have := not_le.mp hr
        exact this
      have hb : (b.priority == p) = false := by
        simp only [beq_eq_false_iff_ne, ne_eq]
        omega
      simp [List.filter_cons, hb, ih]

lemma filter_orderedInsert_priority_ne (p : Int) (a : DetectionRule)
    (l : List DetectionRule) (ha : a.priority ≠ p) :
    (List.orderedInsert priorityGe a l).filter (fun r => r.priority == p) =
      l.filter (fun r => r.priority == p) := by
  have haf : (a.priority == p) = false := by
    simp only [beq_eq_false_iff_ne, ne_eq]
    exact ha
  induction l with
  | nil => simp [List.orderedInsert, List.filter_cons, haf]
  | cons b t ih =>
    by_cases hr : priorityGe a b
    · rw [List.orderedInsert, if_pos hr]
      simp [List.filter_cons, haf]
    · rw [List.orderedInsert, if_neg hr]
      simp [List.filter_cons, ih]

lemma filter_insertionSort_priority (p : Int) (l : List DetectionRule) :
    (List.insertionSort priorityGe l).filter (fun r => r.priority == p) =
      l.filter (fun r => r.priority == p) := by
  induction l with
  | nil => rfl
  | cons a t ih =>
    rw [List.insertionSort]
    by_cases ha : a.priority = p
    · rw [filter_orderedInsert_priority_eq p a _ ha, ih, List.filter_cons]
      simp [ha]
    · rw [filter_orderedInsert_priority_ne p a _ ha, ih, List.filter_cons]
      simp [ha]

end SortStability

open DetectionRules in
/-- Enabled rule named "b", priority 60, listed before the same-priority
rule named "a". -/
def rbC4 : DetectionRule :=
  { name := "b", priority := 60, conditions := { ports := some [1] }
    actions := [], confidence_score := 1, tags := [] }

open DetectionRules in
/-- Enabled rule named "a", priority 60, listed after "b". -/
def raC4 : DetectionRule :=
  { name := "a", priority := 60, conditions := { ports := some [1] }
    actions := [], confidence_score := 1, tags := [] }

open DetectionRules in
/-- A scan input on which both rules match (port 1 open). -/
def scanC4 : ScanInput :=
  { open_ports := [{ port := 1, is_open := true }] }

/-- Counterexample to C4: two enabled rules of equal priority whose list
order is the reverse of their name order are evaluated (and reported) in
list order `["b", "a"]`, not in rule-name order — ties are not broken by
rule name. -/
theorem C4_counterexample :
    rbC4.priority = raC4.priority ∧ raC4.name = "a" ∧ rbC4.name = "b" ∧
      raC4.name.toList < rbC4.name.toList ∧
      ((DetectionRules.evaluate [rbC4, raC4] scanC4).map fun m => m.rule_name) =
        ["b", "a"] ∧
      (["b", "a"] : List String) ≠ ["a", "b"] := by
  refine ⟨rfl, rfl, rfl, ?_, by decide, by decide⟩
  exact List.Lex.rel (by decide)

open DetectionRules in
/-- C4 (amended): `evaluate` runs exactly the enabled rules in
descending-priority order, with ties between equal-priority rules kept
in the order of the engine's rule list (Python's `sorted` is stable),
so the match-list order is deterministic for any rule set: the
evaluation order is a permutation of the enabled rules, is sorted by
descending priority, and preserves the rule-list order within each
priority class. -/
theorem C4_evaluation_order :
    ∀ (rules : List DetectionRule) (scan : ScanInput),
      evaluate rules scan =
          ((sortedEnabledRules rules).map fun r =>
            _evaluate_rule r (openPortNumbers scan) (bannersDict scan.open_ports)).filter
            (fun m => m.matched) ∧
      (sortedEnabledRules rules).Perm (rules.filter fun r => r.enabled) ∧
      List.Sorted (fun a b => b.priority ≤ a.priority) (sortedEnabledRules rules) ∧
      ∀ p : Int,
        (sortedEnabledRules rules).filter (fun r => r.priority == p) =
          (rules.filter fun r => r.enabled).filter (fun r => r.priority == p) := by
  intro rules scan
  exact ⟨rfl, List.perm_insertionSort _ _,
    List.sorted_insertionSort priorityGe (rules.filter fun r => r.enabled),
    fun p => filter_insertionSort_priority p _⟩

section RuleConditionLemmas

open DetectionRules

lemma portsCheck_isSome_iff (rule : DetectionRule) (op : List Nat) :
    (portsCheck rule op).isSome = true ↔
      ∃ ps, rule.conditions.ports = some ps ∧
        rule.conditions.min_ports.getD 1 ≤ (ps.toFinset ∩ op.toFinset).card ∧
        (ps.toFinset ∩ op.toFinset).card ≤
          rule.conditions.max_ports.getD ps.toFinset.card := by
  cases h : rule.conditions.ports with
  | none => simp [portsCheck, h]
  | some ps =>
    simp only [portsCheck, h]
    by_cases hc : rule.conditions.min_ports.getD 1 ≤ (ps.toFinset ∩ op.toFinset).card ∧
        (ps.toFinset ∩ op.toFinset).card ≤ rule.conditions.max_ports.getD ps.toFinset.card
    · simp only [if_pos hc, Option.isSome_some, true_iff]
      exact ⟨ps, rfl, hc.1, hc.2⟩
    · simp only [if_neg hc, Option.isSome_none, Bool.false_eq_true, false_iff]
      rintro ⟨ps2, hps2, h1, h2⟩
      rw [Option.some_inj] at hps2
      exact hc (hps2 ▸ ⟨h1, h2⟩)

lemma bannerMatches_ne_nil_iff (pats : List String) (bs : List (Nat × String)) :
    (bs.flatMap fun pb =>
        (pats.filter fun pat =>
            listContainsSub (lowerChars pat) (lowerChars pb.2)).map
          fun pat => (pb.1, pat)) ≠ [] ↔
      ∃ pb ∈ bs, ∃ pat ∈ pats,
        listContainsSub (lowerChars pat) (lowerChars pb.2) = true := by
  constructor
  · intro hne
    obtain ⟨x, hx⟩ := List.exists_mem_of_ne_nil _ hne
    simp only [List.mem_flatMap, List.mem_map, List.mem_filter] at hx
    obtain ⟨pb, hpb, pat, ⟨hpat, htest⟩, _⟩ := hx
    exact ⟨pb, hpb, pat, hpat, htest⟩
  · rintro ⟨pb, hpb, pat, hpat, htest⟩ hnil
    have hmem : (pb.1, pat) ∈ (bs.flatMap fun pb =>
        (pats.filter fun pat =>
            listContainsSub (lowerChars pat) (lowerChars pb.2)).map
          fun pat => (pb.1, pat)) := by
      simp only [List.mem_flatMap, List.mem_map, List.mem_filter]
      exact ⟨pb, hpb, pat, ⟨hpat, htest⟩, rfl⟩
    rw [hnil] at hmem
    cases hmem

lemma bannerCheck_isSome_iff (rule : DetectionRule) (bs : List (Nat × String)) :
    (bannerCheck rule bs).isSome = true ↔
      ∃ pats, rule.conditions.banner_patterns = some pats ∧
        ∃ pb ∈ bs, ∃ pat ∈ pats,
          listContainsSub (lowerChars pat) (lowerChars pb.2) = true := by
  cases h : rule.conditions.banner_patterns with
  | none => simp [bannerCheck, h]
  | some pats =>
    simp only [bannerCheck, h]
    by_cases he : (bs.flatMap fun pb =>
        (pats.filter fun pat =>
            listContainsSub (lowerChars pat) (lowerChars pb.2)).map
          fun pat => (pb.1, pat)) = []
    · simp only [if_pos he, Option.isSome_none, Bool.false_eq_true, false_iff]
      rintro ⟨pats2, hpats2, hx⟩
      rw [Option.some_inj] at hpats2
      subst hpats2
      exact (bannerMatches_ne_nil_iff pats bs).mpr hx he
    · simp only [if_neg he, Option.isSome_some, true_iff]
      exact ⟨pats, rfl, (bannerMatches_ne_nil_iff pats bs).mp he⟩

lemma comboCheck_isSome_iff (rule : DetectionRule) (op : List Nat) :
    (comboCheck rule op).isSome = true ↔
      ∃ combos, rule.conditions.port_combinations = some combos ∧
        rule.conditions.min_combinations.getD 1 ≤
          (combos.filter fun combo =>
            decide (combo.toFinset ⊆ op.toFinset)).length := by
  cases h : rule.conditions.port_combinations with
  | none => simp [comboCheck, h]
  | some combos =>
    simp only [comboCheck, h]
    by_cases hc : rule.conditions.min_combinations.getD 1 ≤
        (combos.filter fun combo => decide (combo.toFinset ⊆ op.toFinset)).length
    · simp only [if_pos hc, Option.isSome_some, true_iff]
      exact ⟨combos, rfl, hc⟩
    · simp only [if_neg hc, Option.isSome_none, Bool.false_eq_true, false_iff]
      rintro ⟨combos2, hcombos2, h1⟩
      rw [Option.some_inj] at hcombos2
      exact hc (hcombos2 ▸ h1)

end RuleConditionLemmas

open DetectionRules in
/-- C5: a rule matches iff at least one of the condition types present
in it (port set, banner substrings, port combinations) is satisfied —
conditions are OR'd within a rule — and the port-set condition is
satisfied iff `min_ports ≤ |requiredPorts ∩ openPorts| ≤ max_ports`,
with defaults `min_ports = 1`, `max_ports = |requiredPorts|`. -/
theorem C5_rule_match_or_semantics :
    ∀ (rule : DetectionRule) (open_ports : List Nat)
      (banners : List (Nat × String)),
      (_evaluate_rule rule open_ports banners).matched = true ↔
        ((∃ ps, rule.conditions.ports = some ps ∧
            rule.conditions.min_ports.getD 1 ≤
              (ps.toFinset ∩ open_ports.toFinset).card ∧
            (ps.toFinset ∩ open_ports.toFinset).card ≤
              rule.conditions.max_ports.getD ps.toFinset.card) ∨
          (∃ pats, rule.conditions.banner_patterns = some pats ∧
            ∃ pb ∈ banners, ∃ pat ∈ pats,
              listContainsSub (lowerChars pat) (lowerChars pb.2) = true) ∨
          (∃ combos, rule.conditions.port_combinations = some combos ∧
            rule.conditions.min_combinations.getD 1 ≤
              (combos.filter fun combo =>
                decide (combo.toFinset ⊆ open_ports.toFinset)).length)) := by
  intro rule op bs
  have hm : (_evaluate_rule rule op bs).matched =
      ((portsCheck rule op).isSome || (bannerCheck rule bs).isSome ||
        (comboCheck rule op).isSome) := rfl
  rw [hm]
  simp only [Bool.or_eq_true]
  rw [portsCheck_isSome_iff, bannerCheck_isSome_iff, comboCheck_isSome_iff,
    or_assoc]

open DetectionRules in
/-- C9: every `RuleMatch` returned by `evaluate` has `matched = true`
and carries exactly its rule's static `confidence_score`; an enabled
rule whose conditions do not hold contributes no entry at all (its
evaluation is filtered out rather than reported with
`matched = false`). -/
theorem C9_evaluate_returns_only_matches :
    ∀ (rules : List DetectionRule) (scan : ScanInput),
      (∀ m ∈ evaluate rules scan,
        m.matched = true ∧
        ∃ r, r ∈ rules ∧ r.enabled = true ∧
          m = _evaluate_rule r (openPortNumbers scan) (bannersDict scan.open_ports) ∧
          m.confidence = r.confidence_score) ∧
      ∀ r ∈ rules, r.enabled = true →
        (_evaluate_rule r (openPortNumbers scan) (bannersDict scan.open_ports)).matched
            = false →
        _evaluate_rule r (openPortNumbers scan) (bannersDict scan.open_ports) ∉
          evaluate rules scan := by
  intro rules scan
  constructor
  · intro m hm
    simp only [evaluate] at hm
    obtain ⟨hmem, hmatch⟩ := List.mem_filter.mp hm
    obtain ⟨r, hr, rfl⟩ := List.mem_map.mp hmem
    have hr2 : r ∈ rules.filter fun r => r.enabled :=
      (List.perm_insertionSort priorityGe _).mem_iff.mp hr
    obtain ⟨hrules, hen⟩ := List.mem_filter.mp hr2
    refine ⟨hmatch, r, hrules, hen, rfl, ?_⟩
    have hconf : (_evaluate_rule r (openPortNumbers scan)
        (bannersDict scan.open_ports)).confidence =
        if (_evaluate_rule r (openPortNumbers scan)
            (bannersDict scan.open_ports)).matched = true then
          r.confidence_score else 0 := rfl
    rw [hconf, if_pos hmatch]
  · intro r _ _ hnm hmem
    simp only [evaluate] at hmem
    have := (List.mem_filter.mp hmem).2
    rw [hnm] at this
    cases this

open DetectionRules in
/-- Rule used in the C9 witness: matches when port 1 is open. -/
def rC9 : DetectionRule :=
  { name := "w", priority := 50, conditions := { ports := some [1] }
    actions := [], confidence_score := 1, tags := [] }

open DetectionRules in
/-- Scan input used in the C9 witness: port 1 open. -/
def scanC9 : ScanInput :=
  { open_ports := [{ port := 1, is_open := true }] }

open DetectionRules in
/-- Evaluation of `rC9` on `scanC9`. -/
def mC9 : RuleMatch :=
  _evaluate_rule rC9 (openPortNumbers scanC9) (bannersDict scanC9.open_ports)

/-- Witness for C9 at the one-rule engine and one-open-port scan. -/
theorem C9_evaluate_returns_only_matches_witness :
    mC9 ∈ DetectionRules.evaluate [rC9] scanC9 ∧ mC9.matched = true ∧
      mC9.confidence = rC9.confidence_score := by
  have hmem : mC9 ∈ DetectionRules.evaluate [rC9] scanC9 := by decide
  have h := (C9_evaluate_returns_only_matches [rC9] scanC9).1 mC9 hmem
  obtain ⟨r, hr, _, _, hc⟩ := h.2
  rw [List.mem_singleton] at hr
  exact ⟨hmem, h.1, hr ▸ hc⟩

/-- Counterexample to C6: `parse_ip_list` does not fail on a malformed
token — `"zzz"` does not parse as an address, yet
`parse_ip_list "zzz,192.168.1.10"` silently skips it and still returns
the remaining address (192.168.1.10 = 3232235786). -/
theorem C6_counterexample :
    IPM.parseIPv4 ("zzz".toList) = none ∧
      IPM.parse_ip_list IPM.ipmDefault ("zzz,192.168.1.10".toList) =
        [3232235786] := by
  exact ⟨by decide, by decide⟩

open IPM in
/-- C6 (amended): `parse_ip_list` does not fail fast on malformed input
and no `MalformedAddressInput` error exists — a token that parses
neither as an address nor as a CIDR is skipped (after a logged warning)
while every other token is still processed, so the result is exactly
that of the same input without the malformed token; only
`generate_ip_range` rejects malformed input, raising a `ValueError`
wrapped as `"Invalid IP range: ..."` (and only upon iteration of the
generator). -/
theorem C6_malformed_token_skipped :
    (∀ (m : IPManager) (pre post : List (List Char)) (bad : List Char),
      tokenParses bad = false →
      processTokens m (pre ++ bad :: post) = processTokens m (pre ++ post)) ∧
    ∀ (m : IPManager) (s e : List Char),
      parseIPv4 s = none →
      generate_ip_range m s e =
        Except.error ("Invalid IP range: " ++ String.mk s ++ " - " ++ String.mk e) := by
  have hcons : ∀ (m : IPManager) (t : List Char) (rest : List (List Char)),
      processTokens m (t :: rest) =
        (if t = [] then processTokens m rest
         else if t.contains '/' then
           match parseCIDR t with
           | some net =>
             ((networkHosts net).filter fun h => ! _should_exclude m h).union
               (processTokens m rest)
           | none => processTokens m rest
         else
           match parseIPv4 t with
           | some ip =>
             (if _should_exclude m ip then [] else [ip]).union
               (processTokens m rest)
           | none => processTokens m rest) := fun m t rest => rfl
  constructor
  · intro m pre post bad hbad
    induction pre with
    | nil =>
      simp only [List.nil_append]
      by_cases hb0 : bad = []
      · rw [hcons, if_pos hb0]
      · by_cases hsl : bad.contains '/'
        · have hnone : parseCIDR bad = none := by
            unfold tokenParses at hbad
            rw [if_pos hsl] at hbad
            exact Option.not_isSome_iff_eq_none.mp (by simp [hbad])
          rw [hcons, if_neg hb0, if_pos hsl, hnone]
        · have hnone : parseIPv4 bad = none := by
            unfold tokenParses at hbad
            rw [if_neg hsl] at hbad
            exact Option.not_isSome_iff_eq_none.mp (by simp [hbad])
          rw [hcons, if_neg hb0, if_neg hsl, hnone]
    | cons t pre ih =>
      rw [List.cons_append, List.cons_append, hcons, hcons, ih]
  · intro m s e hs
    unfold generate_ip_range
    rw [hs]

open IPM in
/-- Witness for C6 (amended): the malformed token `"zzz"` is dropped
while `"192.168.1.10"` is still processed, and `generate_ip_range`
rejects a malformed start address. -/
theorem C6_malformed_token_skipped_witness :
    tokenParses ("zzz".toList) = false ∧
      processTokens ipmDefault ["zzz".toList, "192.168.1.10".toList] =
        processTokens ipmDefault ["192.168.1.10".toList] ∧
      generate_ip_range ipmDefault ("zzz".toList) ("1.2.3.4".toList) =
        Except.error ("Invalid IP range: " ++ String.mk ("zzz".toList) ++ " - " ++
          String.mk ("1.2.3.4".toList)) := by
  refine ⟨by decide, ?_, ?_⟩
  · exact C6_malformed_token_skipped.1 ipmDefault [] ["192.168.1.10".toList]
      ("zzz".toList) (by decide)
  · exact C6_malformed_token_skipped.2 ipmDefault ("zzz".toList) ("1.2.3.4".toList)
      (by decide)

open IPM in
/-- C7: for every CIDR that parses with prefix length ≤ 30, and with no
exclusion filters configured, `generate_from_cidr` yields exactly
`2^(32-prefix) - 2` distinct addresses, all strictly between the network
address and the broadcast address (which are both excluded). -/
theorem C7_cidr_host_enumeration :
    ∀ (cidr : List Char) (net : IPv4Network),
      parseCIDR cidr = some net → net.prefixLen ≤ 30 →
      ∃ l, generate_from_cidr ipmDefault cidr = Except.ok l ∧
        l.length = 2 ^ (32 - net.prefixLen) - 2 ∧ l.Nodup ∧
        net.base ∉ l ∧ (net.base + (2 ^ (32 - net.prefixLen) - 1)) ∉ l ∧
        ∀ h ∈ l, net.base < h ∧ h < net.base + (2 ^ (32 - net.prefixLen) - 1) := by
  intro cidr net hparse hple
  have h4 : 4 ≤ 2 ^ (32 - net.prefixLen) := by
    calc (4 : Nat) = 2 ^ 2 := by norm_num
      _ ≤ 2 ^ (32 - net.prefixLen) :=
        Nat.pow_le_pow_right (by norm_num) (by omega)
  have hfil : ∀ h : Nat, _should_exclude ipmDefault h = false := fun h => rfl
  have hfilter : (networkHosts net).filter
      (fun h => ! _should_exclude ipmDefault h) = networkHosts net :=
    List.filter_eq_self.mpr fun a _ => by rw [hfil]; rfl
  have hok0 : generate_from_cidr ipmDefault cidr =
      Except.ok ((networkHosts net).filter
        fun h => ! _should_exclude ipmDefault h) := by
    unfold generate_from_cidr
    rw [hparse]
  have hok : generate_from_cidr ipmDefault cidr = Except.ok (networkHosts net) := by
    rw [hok0, hfilter]
  have hhosts : networkHosts net =
      (List.range (2 ^ (32 - net.prefixLen) - 2)).map
        fun i => net.base + 1 + i := by
    unfold networkHosts
    rw [if_pos hple]
  refine ⟨networkHosts net, hok, ?_, ?_, ?_, ?_, ?_⟩
  · rw [hhosts]
    simp [List.length_map, List.length_range]
  · rw [hhosts]
    exact List.Nodup.map (fun a b hab => by omega) (List.nodup_range _)
  · rw [hhosts]
    intro hmem
    obtain ⟨i, _, hEq⟩ := List.mem_map.mp hmem
    omega
  · rw [hhosts]
    intro hmem
    obtain ⟨i, hi, hEq⟩ := List.mem_map.mp hmem
    rw [List.mem_range] at hi
    omega
  · rw [hhosts]
    intro h hmem
    obtain ⟨i, hi, rfl⟩ := List.mem_map.mp hmem
    rw [List.mem_range] at hi
    omega

open IPM in
/-- The CIDR token of the C7 witness. -/
def cidrC7 : List Char := "192.168.1.0/30".toList

/-- Witness for C7 at `192.168.1.0/30`: exactly the two host addresses
192.168.1.1 and 192.168.1.2 (3232235777 and 3232235778). -/
theorem C7_cidr_host_enumeration_witness :
    IPM.parseCIDR cidrC7 = some { base := 3232235776, prefixLen := 30 } ∧
      IPM.generate_from_cidr IPM.ipmDefault cidrC7 =
        Except.ok [3232235777, 3232235778] ∧
      ∃ l, IPM.generate_from_cidr IPM.ipmDefault cidrC7 = Except.ok l ∧
        l.length = 2 ^ (32 - 30) - 2 ∧ l.Nodup := by
  have hp : IPM.parseCIDR cidrC7 =
      some { base := 3232235776, prefixLen := 30 } := by decide
  obtain ⟨l, hok, hlen, hnodup, _⟩ :=
    C7_cidr_host_enumeration cidrC7 { base := 3232235776, prefixLen := 30 }
      hp (by norm_num)
  exact ⟨hp, by rfl, l, hok, hlen, hnodup⟩

open Geolocation in
/-- C8: when caching is enabled and a non-expired cache entry exists
for a (non-local) address, `GeolocationService.lookup` returns the
cached record marked successful, leaves the `RateLimiter` state
untouched, and queries no provider. -/
theorem C8_cached_lookup_frame :
    ∀ (cfg : GeoConfig) (ilam : IlamRegionConfig)
      (store : List (String × GeolocationCache)) (rl : RateLimiter) (now : ℚ)
      (env : ProviderEnv) (ip : String) (c : GeolocationCache),
      ip ≠ "127.0.0.1" → ip ≠ "localhost" → ip ≠ "0.0.0.0" →
      cfg.cache_enabled = true →
      get_geolocation store ip now = some c →
      lookup cfg ilam store rl now env ip true =
          (_cache_to_result ilam c, rl, 0) ∧
        (_cache_to_result ilam c).success = true ∧
        (_cache_to_result ilam c).ip_address = c.ip_address ∧
        (_cache_to_result ilam c).country = c.country ∧
        (_cache_to_result ilam c).city = c.city ∧
        (_cache_to_result ilam c).latitude = c.latitude ∧
        (_cache_to_result ilam c).longitude = c.longitude := by
  intro cfg ilam store rl now env ip c h1 h2 h3 hcache hget
  have hcond : ¬ (ip = "127.0.0.1" ∨ ip = "localhost" ∨ ip = "0.0.0.0") := by
    rintro (h | h | h)
    · exact h1 h
    · exact h2 h
    · exact h3 h
  refine ⟨?_, rfl, rfl, rfl, rfl, rfl, rfl⟩
  simp only [lookup, if_neg hcond, Bool.true_and, hcache, if_true, hget]

open Geolocation in
/-- Cache entry used in the C8 witness. -/
def cC8 : GeolocationCache :=
  { ip_address := "5.6.7.8", country := "Iran", country_code := "IR"
    region := "Ilam Province", city := "Ilam", latitude := 33
    longitude := 46, isp := "ISP", org := "Org", cached_at := some 0
    ttl_hours := 24 }

open Geolocation in
/-- Cache table used in the C8 witness. -/
def storeC8 : List (String × GeolocationCache) := [("5.6.7.8", cC8)]

open Geolocation in
/-- Ilam bounding box used in the C8 witness (32.5-33.5 N, 46.0-47.5 E). -/
def ilamC8 : IlamRegionConfig :=
  { min_latitude := 65/2, max_latitude := 67/2
    min_longitude := 46, max_longitude := 95/2 }

open Geolocation in
/-- Rate limiter state used in the C8 witness. -/
def rlC8 : RateLimiter :=
  { max_requests := 45, time_window := 60, tokens := 45, last_update := 0 }

open Geolocation in
/-- Provider environment used in the C8 witness (never consulted). -/
def envC8 : ProviderEnv :=
  { primary := { ip_address := "5.6.7.8", success := true }
    fallback := { ip_address := "5.6.7.8" } }

/-- Witness for C8: a cached, non-expired entry for 5.6.7.8 is returned
successfully with the limiter untouched and zero providers queried. -/
theorem C8_cached_lookup_frame_witness :
    Geolocation.get_geolocation storeC8 "5.6.7.8" 100 = some cC8 ∧
      Geolocation.lookup { cache_enabled := true, ipinfo_token := "" } ilamC8
          storeC8 rlC8 100 envC8 "5.6.7.8" true =
        (Geolocation._cache_to_result ilamC8 cC8, rlC8, 0) ∧
      (Geolocation._cache_to_result ilamC8 cC8).success = true := by
  have hexp : cC8.is_expired 100 = false := by
    norm_num [Geolocation.GeolocationCache.is_expired, cC8]
  have hget : Geolocation.get_geolocation storeC8 "5.6.7.8" 100 = some cC8 := by
    simp [Geolocation.get_geolocation, storeC8, List.find?, hexp]
  have h := C8_cached_lookup_frame { cache_enabled := true, ipinfo_token := "" }
    ilamC8 storeC8 rlC8 100 envC8 "5.6.7.8" cC8 (by decide) (by decide) (by decide)
    rfl hget
  exact ⟨hget, h.1, h.2.1⟩
